import Mathlib

/-!
# Verification of `viewport-utilities`

A shallow embedding of the `src.js` module of the `viewport-utilities`
repository, together with theorems settling the specification's claims.

The module has two layers:

* a gesture-classification layer (`singleClick`, `createDrag` with the
  helpers `appendOver`, `appendDrag`), which operates on DOM events that
  the JavaScript code mutates in place.  We embed it with an explicit
  heap: events are referenced by a `Nat` id and a `Store` maps ids to
  event records, so that "tagging the very same object" is expressible.
  Stream scheduling is embedded as the list of events the session's
  subscriptions deliver, in arrival order; for `singleClick` each click
  carries its arrival time (ms since the `mousedown`), since the 250 ms
  window (`endWhen(xs.periodic(250))`) is the only timed construct.
* a coordinate-frame layer (`putInWindow`, `resizeFrame`, `changeZoom`,
  `renderBox`), embedded over `ℝ` with 3×3 matrices.  The matrix algebra
  it calls lives in the external `@mvarble/frames.js` package, whose
  code is not part of this repository; those operations are modelled
  from the specification's description of the AffineFrame algebra.
-/

/-! ## Gesture layer: events and the heap -/

/-- The event types (`event.type` strings) that the gesture layer inspects. -/
inductive EType where
  | mousedown
  | mousemove
  | mouseup
  | click
  | wheel
deriving DecidableEq, Repr

/-- A DOM event record, restricted to the attributes the gesture layer of
`src.js` reads or writes: `type`, `clientX`, `clientY`, and the appended
attributes `frame`, `treeKeys` (written by `appendOver`) and `isDrag`
(written by `appendDrag`).  `frame` and `isDrag` are references to other
heap objects, embedded as ids; `treeKeys` is an opaque key list. -/
structure EventObj where
  etype : EType := EType.click
  clientX : ℚ := 0
  clientY : ℚ := 0
  frame : Option Nat := none
  treeKeys : Option (List Nat) := none
  isDrag : Option Nat := none
deriving DecidableEq, Repr

/-- The heap of event objects: JavaScript objects are aliased references,
so mutation is embedded as updating the store at an id. -/
def Store : Type := Nat → EventObj

/-- Lines 111–114 of `src.js`: `const appendDrag = (e, e1) => { e1.isDrag = e;
return e1; }` — mutates `e1` in place, setting its `isDrag` attribute to a
reference to `e`, and returns the same reference `e1`. -/
def appendDrag (store : Store) (e e1 : Nat) : Store × Nat :=
  (Function.update store e1 { store e1 with isDrag := some e }, e1)

/-- Lines 69–73 of `src.js`: `appendOver(event, downEvent)` mutates `event` in
place, copying `frame` and `treeKeys` from `downEvent`, and returns the same
reference `event`. -/
def appendOver (store : Store) (event downEvent : Nat) : Store × Nat :=
  (Function.update store event
    { store event with
      frame := (store downEvent).frame
      treeKeys := (store downEvent).treeKeys },
   event)

/-- Lines 121–139 of `src.js`, the drag session spawned by `createDrag` for one
`mousedown` event `d`.  The input list is the sequence of document events
delivered to the session's merged subscription
`xs.merge(move$.endWhen(up$), up$.take(1))`, in arrival order: document
`mousemove` events up to and including the first `mouseup`.  Both `move$` and
`up$` map each event through `appendDrag(d, ·)` before the merge, so every
delivered event is tagged.  The listener forwards an event iff
`e.type === 'mousemove' || hasMoved`, setting `hasMoved` on forward; the
session completes at the first `mouseup` (`endWhen`/`take(1)`). -/
def dragSession (d : Nat) : Store → Bool → List Nat → Store × List Nat
  | store, _, [] => (store, [])
  | store, hasMoved, e :: rest =>
    let p := appendDrag store d e
    if (p.1 p.2).etype = EType.mouseup then
      (p.1, if (p.1 p.2).etype = EType.mousemove ∨ hasMoved then [p.2] else [])
    else if (p.1 p.2).etype = EType.mousemove ∨ hasMoved then
      let q := dragSession d p.1 true rest
      (q.1, p.2 :: q.2)
    else
      dragSession d p.1 hasMoved rest

/-- Lines 116–141 of `src.js`: `createDrag` maps each `mousedown` event `d` of the
input stream to a fresh drag session with `hasMoved` initially `false`.  We
embed one session: given the heap, the down event's id, and the document
move/up events the session observes, it returns the final heap and the ids the
session emits. -/
def createDrag (store : Store) (d : Nat) (docEvents : List Nat) : Store × List Nat :=
  dragSession d store false docEvents

/-- The JavaScript `Math.abs` function (on exact rationals). -/
def mathAbs (q : ℚ) : ℚ := if q < 0 then -q else q

/-- The function `mathAbs` agrees with the absolute value. -/
theorem mathAbs_eq_abs (q : ℚ) : mathAbs q = |q| := by
  by_cases h : q < 0
  · simp [mathAbs, h, abs_of_neg h]
  · simp [mathAbs, h, abs_of_nonneg (not_lt.mp h)]

/-- Lines 74–82 of `src.js`, the per-`mousedown` window of `singleClick`: document
`click` events are delivered with their arrival time (ms after the down);
`endWhen(xs.periodic(250))` closes the window at the first event arriving at
time ≥ 250; a click within the window qualifies iff both client displacements
from the down event are < 3, and qualifying clicks are passed through
`appendOver(·, downE)` (mutating them) and emitted. -/
def singleClick (downE : Nat) : Store → List (Nat × ℚ) → Store × List Nat
  | store, [] => (store, [])
  | store, (upE, t) :: rest =>
    if 250 ≤ t then (store, [])
    else if mathAbs ((store upE).clientX - (store downE).clientX) < 3 ∧
            mathAbs ((store upE).clientY - (store downE).clientY) < 3 then
      let p := appendOver store upE downE
      let q := singleClick downE p.1 rest
      (q.1, p.2 :: q.2)
    else
      singleClick downE store rest

/-! ### Helper lemmas for the gesture layer -/

/-- The function `appendDrag` only writes the `isDrag` field: every object's `etype` is
unchanged. -/
theorem appendDrag_etype (store : Store) (d e x : Nat) :
    ((appendDrag store d e).1 x).etype = (store x).etype := by
  by_cases h : x = e
  · subst h; simp [appendDrag, Function.update_apply]
  · simp [appendDrag, Function.update_apply, h]

/-- The function `appendDrag` returns the reference it was given. -/
theorem appendDrag_ref (store : Store) (d e : Nat) :
    (appendDrag store d e).2 = e := rfl

/-! ### Concrete event fixtures used by the witnesses -/

def downEv : EventObj :=
  { etype := EType.mousedown, clientX := 10, clientY := 20,
    frame := some 7, treeKeys := some [1, 2] }

def moveEvA : EventObj := { etype := EType.mousemove, clientX := 11, clientY := 21 }

def moveEvB : EventObj := { etype := EType.mousemove, clientX := 12, clientY := 22 }

def upEv : EventObj := { etype := EType.mouseup, clientX := 12, clientY := 22 }

def clickEv : EventObj := { etype := EType.click, clientX := 11, clientY := 19 }

/-- A concrete heap used by the witnesses: id 0 is a `mousedown`, ids 1 and 2
are `mousemove`s, id 3 is a `mouseup`, id 4 is a `click`. -/
def store₀ : Store := fun n =>
  if n = 0 then downEv
  else if n = 1 then moveEvA
  else if n = 2 then moveEvB
  else if n = 3 then upEv
  else clickEv

/-- The function `appendDrag` leaves every object's `isDrag` untouched except the mutated
one, whose `isDrag` becomes a reference to the down event. -/
theorem appendDrag_isDrag (s : Store) (d e x : Nat) :
    ((appendDrag s d e).1 x).isDrag = if x = e then some d else (s x).isDrag := by
  by_cases h : x = e
  · subst h; simp [appendDrag, Function.update_apply]
  · simp [appendDrag, Function.update_apply, h]

/-- Every id a drag session emits is one of the ids it observed. -/
theorem dragSession_mem (d : Nat) (evs : List Nat) :
    ∀ (store : Store) (hm : Bool), ∀ y ∈ (dragSession d store hm evs).2, y ∈ evs := by
  induction evs with
  | nil => intro store hm y hy; simp [dragSession] at hy
  | cons e rest ih =>
    intro store hm y hy
    simp only [dragSession] at hy
    split at hy
    · split at hy
      · simp [appendDrag] at hy
        simp [hy]
      · simp at hy
    · split at hy
      · simp only [appendDrag] at hy
        rcases List.mem_cons.mp hy with hy | hy
        · simp [hy]
        · exact List.mem_cons_of_mem _ (ih _ _ y hy)
      · exact List.mem_cons_of_mem _ (ih _ _ y hy)

/-- Every id the click window emits is the id of one of the observed clicks. -/
theorem singleClick_mem (d : Nat) (tevs : List (Nat × ℚ)) :
    ∀ (store : Store), ∀ y ∈ (singleClick d store tevs).2, y ∈ tevs.map Prod.fst := by
  induction tevs with
  | nil => intro store y hy; simp [singleClick] at hy
  | cons et rest ih =>
    intro store y hy
    obtain ⟨e, t⟩ := et
    simp only [singleClick] at hy
    split at hy
    · simp at hy
    · split at hy
      · simp only [appendOver] at hy
        rcases List.mem_cons.mp hy with hy | hy
        · simp [hy]
        · exact List.mem_cons_of_mem _ (ih _ y hy)
      · exact List.mem_cons_of_mem _ (ih _ y hy)

/-- C1: For every pointer-down `d` whose drag session observes document
events `move, move, up` in that order, the session emits exactly those three
events in order, and each is tagged with `isDrag` pointing at `d`. -/
theorem createDrag_move_move_up (store : Store) (d m1 m2 u : Nat)
    (hm1 : (store m1).etype = EType.mousemove)
    (hm2 : (store m2).etype = EType.mousemove)
    (hu : (store u).etype = EType.mouseup) :
    (createDrag store d [m1, m2, u]).2 = [m1, m2, u] ∧
    ∀ x ∈ [m1, m2, u], ((createDrag store d [m1, m2, u]).1 x).isDrag = some d := by
  constructor
  · simp [createDrag, dragSession, appendDrag_ref, appendDrag_etype, hm1, hm2, hu]
  · intro x hx
    fin_cases hx <;>
      simp only [createDrag, dragSession, appendDrag_ref, appendDrag_etype,
        hm1, hm2, hu] <;>
      simp [appendDrag_isDrag]

/-- Witness for C1 on the concrete heap `store₀`. -/
theorem createDrag_move_move_up_witness :
    (createDrag store₀ 0 [1, 2, 3]).2 = [1, 2, 3] ∧
    ∀ x ∈ [1, 2, 3], ((createDrag store₀ 0 [1, 2, 3]).1 x).isDrag = some 0 :=
  createDrag_move_move_up store₀ 0 1 2 3 rfl rfl rfl

/-- C2: A down followed by an up with no intervening move yields a drag
session that emits nothing: the up is swallowed because `hasMoved` is still
`false`. -/
theorem createDrag_click_empty (store : Store) (d u : Nat) (rest : List Nat)
    (hu : (store u).etype = EType.mouseup) :
    (createDrag store d (u :: rest)).2 = [] := by
  simp [createDrag, dragSession, appendDrag, Function.update_apply, hu]

/-- Witness for C2 on the concrete heap `store₀`. -/
theorem createDrag_click_empty_witness : (createDrag store₀ 0 [3]).2 = [] :=
  createDrag_click_empty store₀ 0 3 [] rfl

/-- C3: For a down `d` and a single document click at time `t` with the
given displacements: `singleClick` emits exactly one event iff `t < 250` and
both displacements are `< 3`; the emitted event is that click, stamped with
`d`'s `frame` and `treeKeys`; displacement `≥ 3` on either axis or arrival at
`≥ 250` ms produces no emission. -/
theorem singleClick_single_up (store : Store) (d e : Nat) (t : ℚ) :
    ((singleClick d store [(e, t)]).2.length = 1 ↔
      t < 250 ∧ |(store e).clientX - (store d).clientX| < 3 ∧
        |(store e).clientY - (store d).clientY| < 3) ∧
    (t < 250 →
      |(store e).clientX - (store d).clientX| < 3 →
      |(store e).clientY - (store d).clientY| < 3 →
      (singleClick d store [(e, t)]).2 = [e] ∧
      ((singleClick d store [(e, t)]).1 e).frame = (store d).frame ∧
      ((singleClick d store [(e, t)]).1 e).treeKeys = (store d).treeKeys) ∧
    ((3 ≤ |(store e).clientX - (store d).clientX| ∨
      3 ≤ |(store e).clientY - (store d).clientY| ∨ 250 ≤ t) →
      (singleClick d store [(e, t)]).2 = []) := by
  by_cases h1 : 250 ≤ t
  · simp [singleClick, h1, not_lt.mpr h1]
  · by_cases h2 : |(store e).clientX - (store d).clientX| < 3
    · by_cases h3 : |(store e).clientY - (store d).clientY| < 3
      · simp [singleClick, h1, h2, h3, not_le.mp h1, mathAbs_eq_abs, appendOver,
          Function.update_apply, not_le.mpr h2, not_le.mpr h3]
      · simp [singleClick, h1, h2, h3, mathAbs_eq_abs, not_lt.mp h3]
    · simp [singleClick, h1, h2, mathAbs_eq_abs, not_lt.mp h2]

/-- Witness for C3 on the concrete heap `store₀`: the click at `t = 100` with
displacement `(1, -1)` qualifies and is stamped with the down's metadata. -/
theorem singleClick_single_up_witness :
    (singleClick 0 store₀ [(4, 100)]).2 = [4] ∧
    ((singleClick 0 store₀ [(4, 100)]).1 4).frame = (store₀ 0).frame ∧
    ((singleClick 0 store₀ [(4, 100)]).1 4).treeKeys = (store₀ 0).treeKeys :=
  (singleClick_single_up store₀ 0 4 100).2.1 (by norm_num)
    (by norm_num [store₀, clickEv, downEv])
    (by norm_num [store₀, clickEv, downEv])

/-- C10: The gesture operators tag events by mutating the incoming event
object in place: `appendDrag` writes `isDrag` onto the very object it was
given and returns that same reference, `appendOver` writes `frame`/`treeKeys`
onto the very object it was given and returns that same reference, every
other heap object is untouched, and every event a drag session or click
window emits is one of the references received from the event source. -/
theorem events_mutated_in_place (store : Store) (d e dn : Nat) (hm : Bool)
    (evs : List Nat) (tevs : List (Nat × ℚ)) :
    (appendDrag store d e).2 = e ∧
    (appendDrag store d e).1 e = { store e with isDrag := some d } ∧
    (∀ x, x ≠ e → (appendDrag store d e).1 x = store x) ∧
    (appendOver store e dn).2 = e ∧
    (appendOver store e dn).1 e =
      { store e with
        frame := (store dn).frame, treeKeys := (store dn).treeKeys } ∧
    (∀ x, x ≠ e → (appendOver store e dn).1 x = store x) ∧
    (∀ y ∈ (dragSession d store hm evs).2, y ∈ evs) ∧
    (∀ y ∈ (singleClick d store tevs).2, y ∈ tevs.map Prod.fst) := by
  refine ⟨rfl, ?_, ?_, rfl, ?_, ?_, dragSession_mem d evs store hm,
    singleClick_mem d tevs store⟩
  · simp [appendDrag]
  · intro x hx; simp [appendDrag, Function.update_apply, hx]
  · simp [appendOver]
  · intro x hx; simp [appendOver, Function.update_apply, hx]

/-- Witness for C10 on the concrete heap `store₀`. -/
theorem events_mutated_in_place_witness :
    (appendDrag store₀ 0 1).2 = 1 ∧
    (appendDrag store₀ 0 1).1 5 = store₀ 5 ∧
    (appendOver store₀ 4 0).1 4 =
      { store₀ 4 with
        frame := (store₀ 0).frame, treeKeys := (store₀ 0).treeKeys } :=
  ⟨(events_mutated_in_place store₀ 0 1 0 false [] []).1,
   (events_mutated_in_place store₀ 0 1 0 false [] []).2.2.1 5 (by decide),
   (events_mutated_in_place store₀ 4 4 0 false [] []).2.2.2.2.1⟩

/-! ## Coordinate-frame layer

Matrices are 3×3 over `ℝ` (the JavaScript code computes with IEEE floats; we
embed the intended real arithmetic).  A `Frame` is the JS object shape used by
the module: an optional `type` tag, optional `width`/`height` metadata
(present on root states), an optional `worldMatrix`, and a list of children.
Frames are immutable values here, exactly as the module treats them. -/

/-- 3×3 real matrices, the `worldMatrix` representation. -/
abbrev Mat3 := Matrix (Fin 3) (Fin 3) ℝ

/-- A node of the frame tree. -/
inductive Frame : Type where
  | mk : Option String → Option ℝ → Option ℝ → Option Mat3 → List Frame → Frame

/-- The `type` attribute. -/
def Frame.ftype : Frame → Option String
  | .mk t _ _ _ _ => t

/-- The `width` attribute. -/
def Frame.width : Frame → Option ℝ
  | .mk _ w _ _ _ => w

/-- The `height` attribute. -/
def Frame.height : Frame → Option ℝ
  | .mk _ _ h _ _ => h

/-- The `worldMatrix` attribute. -/
def Frame.worldMatrix : Frame → Option Mat3
  | .mk _ _ _ m _ => m

/-- The `children` attribute. -/
def Frame.children : Frame → List Frame
  | .mk _ _ _ _ c => c

/-- The empty frame object. -/
def Frame.nil : Frame := .mk none none none none []

/-- The `worldMatrix`, defaulting to the identity when absent. -/
def Frame.worldMatrixD (f : Frame) : Mat3 := f.worldMatrix.getD 1

/-- The access `frame.children[n]` (defaulting to the empty object when absent). -/
def Frame.childD (f : Frame) (n : Nat) : Frame := f.children.getD n Frame.nil

/-- Modelled from the spec: `identityFrame` of the AffineFrame algebra
(`@mvarble/frames.js`, not part of this repository) — the identity frame. -/
def identityFrame : Frame := .mk none none none (some 1) []

/-- Application of an affine 3×3 matrix to a 2D point (the point `(x, y, 1)`
in homogeneous coordinates, reading off the first two coordinates). -/
def applyAffine (M : Mat3) (p : ℝ × ℝ) : ℝ × ℝ :=
  (M 0 0 * p.1 + M 0 1 * p.2 + M 0 2, M 1 0 * p.1 + M 1 1 * p.2 + M 1 2)

/-- Modelled from the spec: `transformedByMatrix(frame, matrix, frame2)` of the
AffineFrame algebra (not part of this repository) — returns a new frame whose
`worldMatrix` has `matrix`, expressed in `frame2`'s coordinate space, applied
to it: `W ↦ W₂ · M · W₂⁻¹ · W`.  Inputs are untouched (no mutation). -/
noncomputable def transformedByMatrix (f : Frame) (M : Mat3) (rel : Frame) : Frame :=
  .mk f.ftype f.width f.height
    (some (rel.worldMatrixD * M * rel.worldMatrixD⁻¹ * f.worldMatrixD))
    f.children

/-- Modelled from the spec: `scaledFrame(frame, scaleVec, pivotFrame)` of the
AffineFrame algebra (not part of this repository) — scales the frame about the
origin of the pivot frame: translate that origin to the origin, scale, and
translate back. -/
noncomputable def scaledFrame (f : Frame) (sv : ℝ × ℝ) (pivot : Frame) : Frame :=
  let T : Mat3 :=
    !![1, 0, pivot.worldMatrixD 0 2; 0, 1, pivot.worldMatrixD 1 2; 0, 0, 1]
  .mk f.ftype f.width f.height
    (some (T * !![sv.1, 0, 0; 0, sv.2, 0; 0, 0, 1] * T⁻¹ * f.worldMatrixD))
    f.children

/-- Modelled from the spec: `locsFrameTrans(points, frame, target)` of the
AffineFrame algebra (not part of this repository) — maps points from `frame`'s
coordinates to `target`'s coordinates (`target⁻¹ · source`). -/
noncomputable def locsFrameTrans (pts : List (ℝ × ℝ)) (f target : Frame) :
    List (ℝ × ℝ) :=
  pts.map (applyAffine (target.worldMatrixD⁻¹ * f.worldMatrixD))

/-- The window frame's matrix literal from `src.js` lines 242–246. -/
noncomputable def windowMatrix (width height : ℝ) : Mat3 :=
  !![width / 2, 0, width / 2; 0, -height / 2, height / 2; 0, 0, 1]

/-- Lines 234–251 of `src.js`: wrap a frame in a root state for a canvas of the
given dimensions; `children[0]` is the window frame, `children[1]` the
untouched input frame. -/
noncomputable def putInWindow (frame : Frame) (width height : ℝ) : Frame :=
  .mk (some "root") (some width) (some height) none
    [.mk (some "window") none none (some (windowMatrix width height)) [],
     frame]

/-- JavaScript `x || d` on an optional numeric attribute: `undefined` and `0`
are falsy, so both fall back to the default. -/
noncomputable def jsOr (x : Option ℝ) (d : ℝ) : ℝ :=
  match x with
  | none => d
  | some v => if v = 0 then d else v

/-- The scale selection of `src.js` lines 265–267:
`scales = [sx, sy]; scale = scales[logScales.indexOf(Math.min(...logScales))]`
with `logScales = scales.map(s => Math.abs(Math.log(s)))`.  On the two-element
array, `indexOf` of the minimum returns index 1 exactly when
`|log sy| < |log sx|` (ties return the first index 0). -/
noncomputable def chooseScale (sx sy : ℝ) : ℝ :=
  if |Real.log sy| < |Real.log sx| then sy else sx

/-- Lines 259–282 of `src.js`: resize the root state to new dimensions, rescaling
the content frame `children[1]` by the chosen uniform scale about the old
canvas centre and recentering it, then rebuilding the root via `putInWindow`. -/
noncomputable def resizeFrame (frame : Frame) (width height : ℝ) : Frame :=
  let oldWidth := jsOr frame.width 1
  let oldHeight := jsOr frame.height 1
  let scale := chooseScale (width / oldWidth) (height / oldHeight)
  let view := transformedByMatrix (frame.childD 1)
    !![scale, 0, (width - oldWidth) / 2;
       0, scale, (height - oldHeight) / 2;
       0, 0, 1]
    (.mk none none none
      (some !![1, 0, oldWidth / 2; 0, 1, oldHeight / 2; 0, 0, 1]) [])
  putInWindow view width height

/-- A DOM element as `relativeMousePosition` reads it: the four sides of the
rectangle its `getBoundingClientRect()` returns (environment-supplied data,
carried as values here) and its `width`/`height` attributes. -/
structure Element where
  left : ℝ
  right : ℝ
  top : ℝ
  bottom : ℝ
  width : ℝ
  height : ℝ

/-- The originating `mousedown` event an `isDrag` back-reference denotes;
`relativeMousePosition` reads only its `target`. -/
structure DownEvent where
  target : Element

/-- A mouse/wheel event as `relativeMousePosition` and `changeZoom` read it:
client coordinates, the wheel delta, the event target, and the `isDrag`
attribute appended by `appendDrag` (absent, hence falsy, on raw events). -/
structure WheelEvent where
  clientX : ℝ
  clientY : ℝ
  deltaY : ℝ
  target : Element
  isDrag : Option DownEvent := none

/-- Lines 51–58 of `src.js`: the mouse position relative to the target of the
event — the target of the `isDrag` event when that appended attribute is
present (truthy), else the event's own target — normalising the client
coordinates over the target's bounding rectangle and scaling by the target's
`width`/`height` attributes. -/
noncomputable def relativeMousePosition (event : WheelEvent) : ℝ × ℝ :=
  let target :=
    match event.isDrag with
    | some e => e.target
    | none => event.target
  ((event.clientX - target.left) / (target.right - target.left) * target.width,
   (event.clientY - target.top) / (target.bottom - target.top) * target.height)

/-- The zoom factor of `src.js` line 295: `scale = Math.pow(1.1, -event.deltaY)`. -/
noncomputable def zoomScale (deltaY : ℝ) : ℝ := (1.1 : ℝ) ^ (-deltaY)

/-- Lines 289–299 of `src.js`: scale the frame about the pointer position through
a vertically-flipped pivot frame centred there, by `1.1 ^ (-deltaY)`. -/
noncomputable def changeZoom (event : WheelEvent) (frame : Frame) : Frame :=
  let p := relativeMousePosition event
  let mouseFrame : Frame :=
    .mk none none none (some !![1, 0, p.1; 0, -1, p.2; 0, 0, 1]) []
  let scale := zoomScale event.deltaY
  scaledFrame frame (scale, scale) mouseFrame

/-- The imperative operations `renderBox` performs on a canvas context. -/
inductive CanvasOp where
  | beginPath
  | moveTo (p : ℝ × ℝ)
  | lineTo (p : ℝ × ℝ)
  | fill
  | stroke

/-- The `options` object of `renderBox`; absent attributes are `undefined`. -/
structure RenderOptions where
  fill : Option Bool := none
  stroke : Option Bool := none

/-- Lines 149–161 of `src.js`: `renderBox(context, frame, options)` destructures
`options || {}` into `fill`/`stroke`, maps the four unit-square corners
through the frame, traces the path, then runs `context.fill()` and
`context.stroke()` only if the respective destructured value is truthy.  The
embedding returns the list of context operations performed, in order. -/
noncomputable def renderBox (frame : Frame) (options : Option RenderOptions) :
    List CanvasOp :=
  let fill := (options.getD {}).fill
  let stroke := (options.getD {}).stroke
  let locs := locsFrameTrans [(-1, -1), (1, -1), (1, 1), (-1, 1)] frame identityFrame
  [CanvasOp.beginPath, CanvasOp.moveTo (locs.getD 0 (0, 0))] ++
    ([1, 2, 3, 0].map fun i => CanvasOp.lineTo (locs.getD i (0, 0))) ++
    (if fill = some true then [CanvasOp.fill] else []) ++
    (if stroke = some true then [CanvasOp.stroke] else [])

/-! ### Helper lemmas for the frame layer -/

/-- Product of two affine translation matrices. -/
theorem translation_mul (a b c d : ℝ) :
    (!![1, 0, a; 0, 1, b; 0, 0, 1] : Mat3) * !![1, 0, c; 0, 1, d; 0, 0, 1] =
      !![1, 0, a + c; 0, 1, b + d; 0, 0, 1] := by
  ext i j
  fin_cases i <;> fin_cases j <;>
    simp [Matrix.mul_apply, Fin.sum_univ_three, Matrix.vecHead,
      Matrix.vecTail] <;>
    ring

/-- Inverse of an affine translation matrix. -/
theorem translation_inv (a b : ℝ) :
    (!![1, 0, a; 0, 1, b; 0, 0, 1] : Mat3)⁻¹ = !![1, 0, -a; 0, 1, -b; 0, 0, 1] := by
  apply Matrix.inv_eq_right_inv
  ext i j
  fin_cases i <;> fin_cases j <;>
    simp [Matrix.mul_apply, Fin.sum_univ_three, Matrix.one_apply,
      Matrix.vecHead, Matrix.vecTail]

/-- Determinant of an affine translation matrix. -/
theorem translation_det (a b : ℝ) :
    (!![1, 0, a; 0, 1, b; 0, 0, 1] : Mat3).det = 1 := by
  norm_num [Matrix.det_fin_three, Matrix.vecHead, Matrix.vecTail]

/-- Affine translation matrices are invertible. -/
theorem translation_isUnit_det (a b : ℝ) :
    IsUnit ((!![1, 0, a; 0, 1, b; 0, 0, 1] : Mat3)).det := by
  rw [translation_det]; exact isUnit_one

/-- Product of two uniform affine scale matrices. -/
theorem scaleM_mul (s r : ℝ) :
    (!![s, 0, 0; 0, s, 0; 0, 0, 1] : Mat3) * !![r, 0, 0; 0, r, 0; 0, 0, 1] =
      !![s * r, 0, 0; 0, s * r, 0; 0, 0, 1] := by
  ext i j
  fin_cases i <;> fin_cases j <;>
    simp [Matrix.mul_apply, Fin.sum_univ_three, Matrix.vecHead, Matrix.vecTail]

/-- Collapsing two conjugated factors around an invertible matrix. -/
theorem conj_mul_conj (T S1 S2 W : Mat3) (hT : IsUnit T.det) :
    T * S2 * T⁻¹ * (T * S1 * T⁻¹ * W) = T * (S2 * S1) * (T⁻¹ * W) := by
  have h := Matrix.nonsing_inv_mul T hT
  calc T * S2 * T⁻¹ * (T * S1 * T⁻¹ * W)
      = T * (S2 * ((T⁻¹ * T) * (S1 * (T⁻¹ * W)))) := by
        simp only [Matrix.mul_assoc]
    _ = T * (S2 * (S1 * (T⁻¹ * W))) := by rw [h, Matrix.one_mul]
    _ = T * (S2 * S1) * (T⁻¹ * W) := by simp only [Matrix.mul_assoc]

/-- The content child of a resized root, unfolded. -/
theorem resizeFrame_content (f : Frame) (w h : ℝ) :
    (resizeFrame f w h).childD 1 =
      transformedByMatrix (f.childD 1)
        !![chooseScale (w / jsOr f.width 1) (h / jsOr f.height 1), 0,
             (w - jsOr f.width 1) / 2;
           0, chooseScale (w / jsOr f.width 1) (h / jsOr f.height 1),
             (h - jsOr f.height 1) / 2;
           0, 0, 1]
        (.mk none none none
          (some !![1, 0, jsOr f.width 1 / 2; 0, 1, jsOr f.height 1 / 2; 0, 0, 1])
          []) := rfl

/-- The `worldMatrix` a `transformedByMatrix` result carries. -/
theorem transformedByMatrix_worldMatrixD (f : Frame) (M : Mat3) (rel : Frame) :
    (transformedByMatrix f M rel).worldMatrixD =
      rel.worldMatrixD * M * rel.worldMatrixD⁻¹ * f.worldMatrixD := rfl

/-- The scale-choice rule of `resizeFrame`: the chosen scale attains the
smaller `|log|`, and ties go to `sx` (the first array element). -/
theorem chooseScale_min_log (sx sy : ℝ) :
    |Real.log (chooseScale sx sy)| = min |Real.log sx| |Real.log sy| ∧
    (|Real.log sx| ≤ |Real.log sy| → chooseScale sx sy = sx) := by
  unfold chooseScale
  by_cases hc : |Real.log sy| < |Real.log sx|
  · rw [if_pos hc]
    exact ⟨(min_eq_right hc.le).symm,
      fun hle => absurd (lt_of_lt_of_le hc hle) (lt_irrefl _)⟩
  · rw [if_neg hc]
    exact ⟨(min_eq_left (not_lt.mp hc)).symm, fun _ => rfl⟩

/-- C8: Round trip: `putInWindow(frame, w, h)` places the input frame,
unchanged, as `children[1]`. -/
theorem putInWindow_roundtrip (f : Frame) (w h : ℝ) :
    (putInWindow f w h).children.get? 1 = some f ∧
    (putInWindow f w h).childD 1 = f :=
  ⟨rfl, rfl⟩

/-- C9, evaluated at the failing input: with `options` omitted,
`renderBox` performs neither the fill nor the stroke operation: the operation
list consists of the path-tracing calls only, contradicting the documented
default that both `fill` and `stroke` are true. -/
theorem renderBox_no_options_no_fill_no_stroke (f : Frame) :
    renderBox f none =
      [CanvasOp.beginPath,
       CanvasOp.moveTo (applyAffine f.worldMatrixD (-1, -1)),
       CanvasOp.lineTo (applyAffine f.worldMatrixD (1, -1)),
       CanvasOp.lineTo (applyAffine f.worldMatrixD (1, 1)),
       CanvasOp.lineTo (applyAffine f.worldMatrixD (-1, 1)),
       CanvasOp.lineTo (applyAffine f.worldMatrixD (-1, -1))] := by
  simp [renderBox, locsFrameTrans, identityFrame, Frame.worldMatrixD,
    Frame.worldMatrix, inv_one]

/-- The image of a point under the window matrix. -/
theorem windowMatrix_apply (w h u v : ℝ) :
    applyAffine (windowMatrix w h) (u, v) =
      (w / 2 * u + w / 2, -(h / 2) * v + h / 2) := by
  simp only [applyAffine, windowMatrix]
  norm_num [Matrix.vecHead, Matrix.vecTail]
  ring

/-- C7: For positive dimensions, the window frame built by `putInWindow`
has an affine `worldMatrix` (bottom row `[0, 0, 1]`) that maps the content
square `[-1, 1]²` onto the device rectangle `[0, w] × [0, h]` with a vertical
flip: `(-1, -1) ↦ (0, h)` and `(1, 1) ↦ (w, 0)`. -/
theorem putInWindow_window_matrix (f : Frame) (w h : ℝ) (hw : 0 < w) (hh : 0 < h) :
    ((putInWindow f w h).childD 0).worldMatrixD = windowMatrix w h ∧
    (windowMatrix w h 2 0 = 0 ∧ windowMatrix w h 2 1 = 0 ∧
      windowMatrix w h 2 2 = 1) ∧
    applyAffine (windowMatrix w h) (-1, -1) = (0, h) ∧
    applyAffine (windowMatrix w h) (1, 1) = (w, 0) ∧
    (∀ u v : ℝ, -1 ≤ u → u ≤ 1 → -1 ≤ v → v ≤ 1 →
      0 ≤ (applyAffine (windowMatrix w h) (u, v)).1 ∧
      (applyAffine (windowMatrix w h) (u, v)).1 ≤ w ∧
      0 ≤ (applyAffine (windowMatrix w h) (u, v)).2 ∧
      (applyAffine (windowMatrix w h) (u, v)).2 ≤ h) ∧
    (∀ a b : ℝ, 0 ≤ a → a ≤ w → 0 ≤ b → b ≤ h →
      ∃ u v : ℝ, -1 ≤ u ∧ u ≤ 1 ∧ -1 ≤ v ∧ v ≤ 1 ∧
        applyAffine (windowMatrix w h) (u, v) = (a, b)) := by
  refine ⟨rfl, ⟨rfl, rfl, rfl⟩, ?_, ?_, ?_, ?_⟩
  · rw [windowMatrix_apply, Prod.mk.injEq]
    constructor <;> ring
  · rw [windowMatrix_apply, Prod.mk.injEq]
    constructor <;> ring
  · intro u v hu1 hu2 hv1 hv2
    rw [windowMatrix_apply]
    refine ⟨by nlinarith, by nlinarith, by nlinarith, by nlinarith⟩
  · intro a b ha1 ha2 hb1 hb2
    refine ⟨2 * a / w - 1, 1 - 2 * b / h, ?_, ?_, ?_, ?_, ?_⟩
    · have : 0 ≤ 2 * a / w := by positivity
      linarith
    · have : 2 * a / w ≤ 2 := by
        rw [div_le_iff₀ hw]; nlinarith
      linarith
    · have : 2 * b / h ≤ 2 := by
        rw [div_le_iff₀ hh]; nlinarith
      linarith
    · have : 0 ≤ 2 * b / h := by positivity
      linarith
    · rw [windowMatrix_apply, Prod.mk.injEq]
      have hw0 : w ≠ 0 := ne_of_gt hw
      have hh0 : h ≠ 0 := ne_of_gt hh
      constructor <;> (field_simp; ring)

/-- Witness for C7 at `w = h = 2`. -/
theorem putInWindow_window_matrix_witness :
    applyAffine (windowMatrix 2 2) (-1, -1) = (0, 2) ∧
    applyAffine (windowMatrix 2 2) (1, 1) = (2, 0) :=
  ⟨(putInWindow_window_matrix Frame.nil 2 2 (by norm_num) (by norm_num)).2.2.1,
   (putInWindow_window_matrix Frame.nil 2 2 (by norm_num) (by norm_num)).2.2.2.1⟩

/-- C5, counterexample: resize idempotence fails as stated when the
dimensions are `0`: `0` is falsy for the `|| 1` defaults, so the old
dimensions are read as `1`, the per-axis ratios are `0/1 = 0`, and the content
frame is scaled by `0` — its transform changes. -/
theorem resizeFrame_idempotent_counterexample :
    ¬ (((resizeFrame (putInWindow identityFrame 0 0) 0 0).childD 1).worldMatrixD =
        ((putInWindow identityFrame 0 0).childD 1).worldMatrixD) := by
  intro hEq
  have hL : ((resizeFrame (putInWindow identityFrame 0 0) 0 0).childD 1).worldMatrixD =
      (!![1, 0, jsOr (some 0) 1 / 2; 0, 1, jsOr (some 0) 1 / 2; 0, 0, 1] : Mat3) *
        !![chooseScale (0 / jsOr (some 0) 1) (0 / jsOr (some 0) 1), 0,
             (0 - jsOr (some 0) 1) / 2;
           0, chooseScale (0 / jsOr (some 0) 1) (0 / jsOr (some 0) 1),
             (0 - jsOr (some 0) 1) / 2;
           0, 0, 1] *
        (!![1, 0, jsOr (some 0) 1 / 2; 0, 1, jsOr (some 0) 1 / 2; 0, 0, 1] : Mat3)⁻¹ *
        1 := rfl
  rw [hL] at hEq
  have hR : ((putInWindow identityFrame 0 0).childD 1).worldMatrixD = (1 : Mat3) := rfl
  rw [hR] at hEq
  have hjs : jsOr (some 0) 1 = 1 := by simp [jsOr]
  rw [hjs] at hEq
  have hcs : chooseScale ((0 : ℝ) / 1) (0 / 1) = 0 := by norm_num [chooseScale]
  rw [hcs, translation_inv, Matrix.mul_one] at hEq
  have h00 := congrFun (congrFun hEq 0) 0
  norm_num [Matrix.mul_apply, Fin.sum_univ_three, Matrix.vecHead, Matrix.vecTail,
    Matrix.one_apply] at h00

/-- C5, amended: resize idempotence holds whenever the recorded
dimensions are nonzero (so that the `|| 1` defaults do not interfere): if
`state.width = w ≠ 0` and `state.height = h ≠ 0`, then `resizeFrame(state, w, h)`
chooses scale `1` and applies zero translation, leaving the content frame's
transform unchanged. -/
theorem resizeFrame_idempotent (st : Frame) (w h : ℝ) (hW : st.width = some w)
    (hH : st.height = some h) (hw : w ≠ 0) (hh : h ≠ 0) :
    chooseScale (w / jsOr st.width 1) (h / jsOr st.height 1) = 1 ∧
    ((resizeFrame st w h).childD 1).worldMatrixD = (st.childD 1).worldMatrixD := by
  have e1 : jsOr st.width 1 = w := by rw [hW]; simp [jsOr, hw]
  have e2 : jsOr st.height 1 = h := by rw [hH]; simp [jsOr, hh]
  have hs' : chooseScale (w / w) (h / h) = 1 := by
    rw [div_self hw, div_self hh]; simp [chooseScale]
  refine ⟨by rw [e1, e2]; exact hs', ?_⟩
  rw [resizeFrame_content, transformedByMatrix_worldMatrixD, e1, e2, hs']
  simp only [sub_self, zero_div]
  have hRm : (Frame.mk none none none
      (some !![1, 0, w / 2; 0, 1, h / 2; 0, 0, 1]) []).worldMatrixD =
      !![1, 0, w / 2; 0, 1, h / 2; 0, 0, 1] := rfl
  rw [hRm, show (!![(1 : ℝ), 0, 0; 0, 1, 0; 0, 0, 1] : Mat3) = 1 from
    Matrix.one_fin_three.symm, Matrix.mul_one,
    Matrix.mul_nonsing_inv _ (translation_isUnit_det _ _), Matrix.one_mul]

/-- Witness for C5 (amended) at `w = 5`, `h = 4`. -/
theorem resizeFrame_idempotent_witness :
    ((resizeFrame (putInWindow identityFrame 5 4) 5 4).childD 1).worldMatrixD =
      ((putInWindow identityFrame 5 4).childD 1).worldMatrixD :=
  (resizeFrame_idempotent (putInWindow identityFrame 5 4) 5 4 rfl rfl
    (by norm_num) (by norm_num)).2

/-- C4: `resizeFrame` rescales by the per-axis ratio whose `|log|` is
smaller, with ties going to the width ratio; in the scenario
`resizeFrame(state, 800, 600)` then `resizeFrame(result, 400, 600)`, the
second call's chosen scale is the height ratio `600/600 = 1`, so the content
frame's transform changes only by the recentering translation
`((400 − 800)/2, (600 − 600)/2) = (−200, 0)`. -/
theorem resizeFrame_min_log_scale_scenario (st : Frame) :
    (∀ sx sy : ℝ,
      |Real.log (chooseScale sx sy)| = min |Real.log sx| |Real.log sy| ∧
      (|Real.log sx| ≤ |Real.log sy| → chooseScale sx sy = sx)) ∧
    chooseScale (400 / jsOr (resizeFrame st 800 600).width 1)
      (600 / jsOr (resizeFrame st 800 600).height 1) = 1 ∧
    ((resizeFrame (resizeFrame st 800 600) 400 600).childD 1).worldMatrixD =
      !![1, 0, -200; 0, 1, 0; 0, 0, 1] *
        ((resizeFrame st 800 600).childD 1).worldMatrixD := by
  have e1 : jsOr (resizeFrame st 800 600).width 1 = 800 := by
    show jsOr (some 800) 1 = 800
    norm_num [jsOr]
  have e2 : jsOr (resizeFrame st 800 600).height 1 = 600 := by
    show jsOr (some 600) 1 = 600
    norm_num [jsOr]
  have hcs : chooseScale ((400 : ℝ) / 800) (600 / 600) = 1 := by
    have h12 : (400 : ℝ) / 800 = 1 / 2 := by norm_num
    have h1 : (600 : ℝ) / 600 = 1 := by norm_num
    rw [h12, h1]
    unfold chooseScale
    rw [if_pos]
    rw [Real.log_one, abs_zero]
    exact abs_pos.mpr (ne_of_lt (Real.log_neg (by norm_num) (by norm_num)))
  refine ⟨fun sx sy => chooseScale_min_log sx sy, by rw [e1, e2]; exact hcs, ?_⟩
  rw [resizeFrame_content, transformedByMatrix_worldMatrixD, e1, e2, hcs]
  have hRm : (Frame.mk none none none
      (some !![1, 0, (800 : ℝ) / 2; 0, 1, 600 / 2; 0, 0, 1]) []).worldMatrixD =
      !![1, 0, (400 : ℝ); 0, 1, 300; 0, 0, 1] := by
    show (!![1, 0, (800 : ℝ) / 2; 0, 1, 600 / 2; 0, 0, 1] : Mat3) = _
    norm_num
  rw [hRm]
  have hprod : (!![(1 : ℝ), 0, 400; 0, 1, 300; 0, 0, 1] : Mat3) *
      !![(1 : ℝ), 0, (400 - 800) / 2; 0, 1, (600 - 600) / 2; 0, 0, 1] *
      (!![(1 : ℝ), 0, 400; 0, 1, 300; 0, 0, 1] : Mat3)⁻¹ =
      !![1, 0, -200; 0, 1, 0; 0, 0, 1] := by
    rw [translation_inv]
    ext i j
    fin_cases i <;> fin_cases j <;>
      norm_num [Matrix.mul_apply, Fin.sum_univ_three, Matrix.vecHead,
        Matrix.vecTail]
  rw [hprod]

/-- Witness for C4: the tie-free selection rule applied at the concrete pair
`(e, e²)`, whose logs are `1` and `2`. -/
theorem resizeFrame_min_log_scale_scenario_witness :
    chooseScale (Real.exp 1) (Real.exp 2) = Real.exp 1 :=
  ((resizeFrame_min_log_scale_scenario Frame.nil).1 (Real.exp 1) (Real.exp 2)).2
    (by rw [Real.log_exp, Real.log_exp]; norm_num)

/-- The `worldMatrix` produced by one `changeZoom` application, as a
conjugated uniform scale about the pointer position computed by
`relativeMousePosition`. -/
theorem changeZoom_worldMatrix (e : WheelEvent) (f : Frame) :
    (changeZoom e f).worldMatrixD =
      !![1, 0, (relativeMousePosition e).1;
         0, 1, (relativeMousePosition e).2; 0, 0, 1] *
        !![zoomScale e.deltaY, 0, 0; 0, zoomScale e.deltaY, 0; 0, 0, 1] *
        (!![1, 0, (relativeMousePosition e).1;
            0, 1, (relativeMousePosition e).2; 0, 0, 1] : Mat3)⁻¹ *
        f.worldMatrixD := rfl

/-- C6: `changeZoom` scales the frame by `1.1 ^ (−deltaY)` about the
pointer pivot; zoom factors compose multiplicatively (the cumulative scale of
two zooms at the same pivot is `zoomScale (d1 + d2)`), `zoomScale` is strictly
antitone in `deltaY`, and zooming by `dy` then `−dy` at the same pivot
restores the original frame's transform exactly (over exact arithmetic). -/
theorem changeZoom_scale_law (x y d1 d2 dy : ℝ) (el : Element)
    (od : Option DownEvent) (f : Frame) :
    (∀ e : WheelEvent, ∀ g : Frame, (changeZoom e g).worldMatrixD =
      !![1, 0, (relativeMousePosition e).1;
         0, 1, (relativeMousePosition e).2; 0, 0, 1] *
        !![zoomScale e.deltaY, 0, 0; 0, zoomScale e.deltaY, 0; 0, 0, 1] *
        (!![1, 0, (relativeMousePosition e).1;
            0, 1, (relativeMousePosition e).2; 0, 0, 1] : Mat3)⁻¹ *
        g.worldMatrixD) ∧
    zoomScale d1 * zoomScale d2 = zoomScale (d1 + d2) ∧
    StrictAnti zoomScale ∧
    ((changeZoom ⟨x, y, d2, el, od⟩
        (changeZoom ⟨x, y, d1, el, od⟩ f)).worldMatrixD =
      !![1, 0, (relativeMousePosition ⟨x, y, d1, el, od⟩).1;
         0, 1, (relativeMousePosition ⟨x, y, d1, el, od⟩).2; 0, 0, 1] *
        !![zoomScale (d1 + d2), 0, 0; 0, zoomScale (d1 + d2), 0; 0, 0, 1] *
        (!![1, 0, (relativeMousePosition ⟨x, y, d1, el, od⟩).1;
            0, 1, (relativeMousePosition ⟨x, y, d1, el, od⟩).2;
            0, 0, 1] : Mat3)⁻¹ *
        f.worldMatrixD) ∧
    (changeZoom ⟨x, y, -dy, el, od⟩
        (changeZoom ⟨x, y, dy, el, od⟩ f)).worldMatrixD =
      f.worldMatrixD := by
  have hmul : ∀ a b : ℝ, zoomScale a * zoomScale b = zoomScale (a + b) := by
    intro a b
    unfold zoomScale
    rw [← Real.rpow_add (by norm_num : (0 : ℝ) < 1.1)]
    ring_nf
  refine ⟨fun e g => changeZoom_worldMatrix e g, hmul d1 d2, ?_, ?_, ?_⟩
  · intro a b hab
    unfold zoomScale
    exact Real.rpow_lt_rpow_of_exponent_lt (by norm_num) (neg_lt_neg hab)
  · rw [changeZoom_worldMatrix, changeZoom_worldMatrix]
    dsimp only
    rw [show relativeMousePosition ⟨x, y, d2, el, od⟩ =
        relativeMousePosition ⟨x, y, d1, el, od⟩ from rfl]
    rw [conj_mul_conj _ _ _ _ (translation_isUnit_det _ _), scaleM_mul,
      hmul d2 d1, add_comm d2 d1]
    simp only [Matrix.mul_assoc]
  · rw [changeZoom_worldMatrix, changeZoom_worldMatrix]
    dsimp only
    rw [show relativeMousePosition ⟨x, y, -dy, el, od⟩ =
        relativeMousePosition ⟨x, y, dy, el, od⟩ from rfl]
    rw [conj_mul_conj _ _ _ _ (translation_isUnit_det _ _), scaleM_mul,
      hmul (-dy) dy]
    have h0 : zoomScale (-dy + dy) = 1 := by
      rw [neg_add_cancel]
      unfold zoomScale
      rw [neg_zero, Real.rpow_zero]
    rw [h0, show (!![(1 : ℝ), 0, 0; 0, 1, 0; 0, 0, 1] : Mat3) = 1 from
      Matrix.one_fin_three.symm, Matrix.mul_one]
    exact Matrix.mul_nonsing_inv_cancel_left _ _ (translation_isUnit_det _ _)

/-- A concrete canvas element for the C6 witness: bounding rectangle
`[0, 2] × [0, 2]` and attribute size `2 × 2`. -/
def el₀ : Element :=
  { left := 0, right := 2, top := 0, bottom := 2, width := 2, height := 2 }

/-- Witness for C6: strict antitonicity at `0 < 1` and the exact zoom-in /
zoom-out inverse with `dy = 1` at the pivot computed for a raw wheel event on
the concrete element `el₀`, on the identity frame. -/
theorem changeZoom_scale_law_witness :
    zoomScale 1 < zoomScale 0 ∧
    (changeZoom ⟨0, 0, -1, el₀, none⟩
      (changeZoom ⟨0, 0, 1, el₀, none⟩ identityFrame)).worldMatrixD =
      identityFrame.worldMatrixD :=
  ⟨(changeZoom_scale_law 0 0 0 0 0 el₀ none identityFrame).2.2.1
      (by norm_num : (0 : ℝ) < 1),
   (changeZoom_scale_law 0 0 0 0 1 el₀ none identityFrame).2.2.2.2⟩
